import Mathlib

/-!
A verification development for the gymwipe wireless-network simulator.
The definitions below are shallow embeddings of the Python source:

* `gymwipe/control/scheduler.py` (TDMA/CSMA schedules, round-robin
  scheduler, schedule encoders),
* `gymwipe/networking/physical.py` (MCS maximum correctable BER,
  attenuation-model factory, frequency band transmission registry),
* `gymwipe/networking/stack.py` (physical-layer receive decision,
  MAC address generation),
* `gymwipe/networking/mac_layers.py` (MAC address generation).

Machine floats of the source are modelled by rationals; Python `round`
(round half to even) is modelled by `pyRound`; device MAC addresses are
modelled by strings (their tokenized representation inside schedule
strings).
-/

namespace Gymwipe

/-- Devices are identified by the string token of their MAC address
(as it appears in a schedule string produced by `TDMASchedule.__init__`). -/
abbrev Dev := String

/-! ### TDMA schedules (`scheduler.py`, `TDMASchedule`) -/

/-- One run entry of a TDMA schedule string: the tokens
`start dev flag "1"` appended by `TDMASchedule.__init__` for a schedule
line (the literal trailing `"1"` run marker is identical for every entry
and therefore not stored). -/
structure Entry where
  start : Nat
  dev : Dev
  flag : Nat
deriving DecidableEq, Repr

/-- The loop body of `TDMASchedule.__init__`: walking the action list
with the running index `i` (0-based; the emitted start slot is `i + 1`)
and `last`, the previously seen action (`None` at the start), an entry is
emitted exactly when the current `(device, flag)` action differs from the
previous one. -/
def compressEntries : Nat → Option (Dev × Nat) → List (Dev × Nat) → List Entry
  | _, _, [] => []
  | i, last, a :: rest =>
    if some a = last then compressEntries (i + 1) (some a) rest
    else ⟨i + 1, a.1, a.2⟩ :: compressEntries (i + 1) (some a) rest

/-- A TDMA schedule as built by `TDMASchedule.__init__`: the raw action
list (kept on the object and read by `tdma_encode`), the run entries of
the schedule string, and the end marker token `len(action) + 1` appended
after the entries. -/
structure TDMASchedule where
  action : List (Dev × Nat)
  entries : List Entry
  endMarker : Nat
deriving DecidableEq, Repr

/-- `TDMASchedule.__init__`. -/
def mkTDMASchedule (action : List (Dev × Nat)) : TDMASchedule :=
  ⟨action, compressEntries 0 none action, action.length + 1⟩

/-- `TDMASchedule.get_end_time`: parses the last token of the schedule
string, which by construction is the end marker. -/
def TDMASchedule.getEndTime (s : TDMASchedule) : Nat :=
  s.endMarker

/-- The start token following an entry in the schedule string: the start
slot of the next entry, or the end marker when no entry follows (this is
the token `schedule_list[i+3]` read by `get_next_relevant_timespan`). -/
def headStart : List Entry → Nat → Nat
  | [], endMarker => endMarker
  | e :: _, _ => e.start

/-- The scanning loop of `TDMASchedule.get_next_relevant_timespan`: walk
the entries in order; at an entry whose device equals `mac` and whose
start slot is strictly greater than `lastStep`, return the pair of that
start slot and the next entry's start slot (or the end marker); otherwise
keep scanning, returning `none` when exhausted. -/
def findTimespan : List Entry → Nat → Dev → Nat → Option (Nat × Nat)
  | [], _, _, _ => none
  | e :: rest, endMarker, mac, lastStep =>
    if e.dev = mac ∧ lastStep < e.start then some (e.start, headStart rest endMarker)
    else findTimespan rest endMarker mac lastStep

/-- `TDMASchedule.get_next_relevant_timespan`. -/
def TDMASchedule.getNextRelevantTimespan (s : TDMASchedule) (mac : Dev) (lastStep : Nat) :
    Option (Nat × Nat) :=
  findTimespan s.entries s.endMarker mac lastStep

/-- The list of spans `(start, nextStart, device)` described by a TDMA
schedule: each entry paired with the start of its successor (or the end
marker). Used to state the scanning law for
`get_next_relevant_timespan`. -/
def spansOf : List Entry → Nat → List (Nat × Nat × Dev)
  | [], _ => []
  | e :: rest, endMarker => (e.start, headStart rest endMarker, e.dev) :: spansOf rest endMarker

/-! ### Python string comparison (`RoundRobinTDMAScheduler.get_next_control_slot`) -/

/-- Lexicographic order on character lists, exactly Python's `<` on
strings: compare code points position by position; a proper initial
segment is smaller. -/
def lexLt : List Char → List Char → Bool
  | [], [] => false
  | [], _ :: _ => true
  | _ :: _, [] => false
  | a :: as, b :: bs => if a < b then true else if b < a then false else lexLt as bs

/-- Python's `<` on strings. -/
def pyStrLt (a b : String) : Bool :=
  lexLt a.data b.data

/-- `RoundRobinTDMAScheduler.get_next_control_slot`: walk the schedule
string's entries; at an entry whose device is one of the scheduler's
actuators, compare the *string token* of the start slot with the given
`lastControlSlot` string (Python compares the two raw strings
lexicographically, never converting to integers) and return the
`[slot token, device]` pair on success. -/
def getNextControlSlot : List Entry → List Dev → String → Option (String × Dev)
  | [], _, _ => none
  | e :: rest, actuators, lastControlSlot =>
    if e.dev ∈ actuators ∧ pyStrLt lastControlSlot (Nat.repr e.start) then
      some (Nat.repr e.start, e.dev)
    else getNextControlSlot rest actuators lastControlSlot

/-! ### CSMA schedules (`scheduler.py`, `CSMASchedule`) -/

/-- A CSMA schedule as built by `CSMASchedule.__init__`: the list of
`(device, probability)` pairs and the validity length. The object's
`schedule` list holds one line per pair plus the final length line. -/
structure CSMASchedule where
  action : List (Dev × ℚ)
  length : Nat
deriving DecidableEq

/-- The lines of `CSMASchedule.schedule`: one `Sum.inl` line per
`(device, probability)` pair, then the `Sum.inr` length line. -/
def csmaLines (s : CSMASchedule) : List ((Dev × ℚ) ⊕ Nat) :=
  s.action.map Sum.inl ++ [Sum.inr s.length]

/-- `csma_encode`: 7 bytes for each line of the schedule but the last,
plus the 1 trailing byte. -/
def csmaEncode (s : CSMASchedule) : Nat :=
  7 * ((csmaLines s).length - 1) + 1

/-! ### Schedule encoding (`scheduler.py`, `tdma_encode`) -/

/-- The lines of `TDMASchedule.schedule`: one `Sum.inl` line per run
entry, then the `Sum.inr` end-marker line. -/
def tdmaLines (s : TDMASchedule) : List (Entry ⊕ Nat) :=
  s.entries.map Sum.inl ++ [Sum.inr s.endMarker]

/-- The compressed-branch loop of `tdma_encode`: walk the raw action
list keeping the `already_in` list of devices seen so far; a device
already seen costs 3 bytes, a new device costs 7 bytes and is added to
`already_in`. -/
def tdmaEncodeCompressedLoop : List Dev → List (Dev × Nat) → Nat
  | _, [] => 0
  | alreadyIn, (d, _) :: rest =>
    if d ∈ alreadyIn then 3 + tdmaEncodeCompressedLoop alreadyIn rest
    else 7 + tdmaEncodeCompressedLoop (d :: alreadyIn) rest

/-- `tdma_encode`: starts from the 1 trailing time byte; uncompressed,
each schedule line but the end marker costs 7 bytes; compressed, the raw
action list is charged 7 bytes for a device's first slot and 3 bytes for
each repeated slot of an already-seen device. -/
def tdmaEncode (s : TDMASchedule) (compressed : Bool) : Nat :=
  if compressed then 1 + tdmaEncodeCompressedLoop [] s.action
  else 1 + 7 * ((tdmaLines s).length - 1)

/-! ### Round-robin TDMA scheduler (`scheduler.py`, `RoundRobinTDMAScheduler`) -/

/-- The mutable scheduler state read and written by `next_schedule`:
the cursor `nextDevice` into the device list and the `wasActuator`
duty-cycle flag. -/
structure RRState where
  nextDevice : Nat
  wasActuator : Bool
deriving DecidableEq, Repr

/-- One iteration of the `next_schedule` loop body: emit the slot
assignment for the device at the cursor (an actuator alternates flag `1`
then `0` on consecutive assignments, driven by `wasActuator`; any other
device gets flag `0`), then advance the cursor — wrapping at the end of
the device list — unless `wasActuator` was just set. -/
def rrStep (devices actuators : List Dev) (s : RRState) : (Dev × Nat) × RRState :=
  let d := devices.getD s.nextDevice ""
  let slotAndFlag : (Dev × Nat) × Bool :=
    if d ∈ actuators then
      if s.wasActuator then ((d, 0), false) else ((d, 1), true)
    else ((d, 0), s.wasActuator)
  let wasAct := slotAndFlag.2
  let next :=
    if wasAct then s.nextDevice
    else if s.nextDevice = devices.length - 1 then 0 else s.nextDevice + 1
  (slotAndFlag.1, ⟨next, wasAct⟩)

/-- Generating `n` consecutive slot assignments by iterating `rrStep`,
returning the emitted action list together with the final scheduler
state. `RoundRobinTDMAScheduler.next_schedule` is `rrGen` applied to the
scheduler's `timeslots` and its persistent state. -/
def rrGen (devices actuators : List Dev) : Nat → RRState → List (Dev × Nat) × RRState
  | 0, s => ([], s)
  | n + 1, s =>
    let (slot, s1) := rrStep devices actuators s
    let (rest, s2) := rrGen devices actuators n s1
    (slot :: rest, s2)

/-! ### CSMA schedule validity (modelled from the spec) -/

/-- Python `round` on a rational: round half to even (banker's
rounding), as applied by `stack.py` to the accumulated bit error count
and by the CSMA probability-sum check. -/
def pyRound (q : ℚ) : ℤ :=
  if q - ⌊q⌋ < 1 / 2 then ⌊q⌋
  else if 1 / 2 < q - ⌊q⌋ then ⌊q⌋ + 1
  else if ⌊q⌋ % 2 = 0 then ⌊q⌋ else ⌊q⌋ + 1

/-- Python `round(q, 1)`: round to one decimal digit. -/
def pyRound1 (q : ℚ) : ℚ :=
  (pyRound (10 * q) : ℚ) / 10

/-- Modelled from the spec: the CSMA schedule construction path. The
`RandomCSMAScheduler` imported by `MyDevices.py` is absent from the
source tree, and with it the CSMA probability-sum check the spec
describes (`round(sum, 1)` compared against `1.0`). Per the spec,
construction succeeds — yielding the `CSMASchedule` — exactly when the
per-device probabilities sum to `1.0` after rounding to one decimal;
otherwise the problem is logged and no schedule object is produced. -/
def mkCSMAScheduleChecked (action : List (Dev × ℚ)) (length : Nat) : Option CSMASchedule :=
  if pyRound1 (action.map (fun p => p.2)).sum = 1 then some ⟨action, length⟩
  else none

/-! ### Maximum correctable BER (`physical.py`, `Mcs.maxCorrectableBer`) -/

/-- The `while` loop of `Mcs.maxCorrectableBer`, fuelled: starting from
`cur = 0` and `t = 0`, add `C(n, t)` to `cur` and increment `t` while
`cur` has not yet exceeded `bound`; return the final `t`. The Python
loop always terminates when the code rate is a proper fraction, since
the partial sums reach `2 ^ n > bound`; fuel `n + 2` is then enough to
reproduce it exactly. -/
def vgLoop (n bound : Nat) : Nat → Nat → Nat → Nat
  | 0, _, t => t
  | fuel + 1, cur, t =>
    if cur ≤ bound then vgLoop n bound fuel (cur + Nat.choose n t) (t + 1) else t

/-- `Mcs.maxCorrectableBer` for code rate `k / n`: with
`bound = 2 ^ (n - k)`, find the minimal `t` whose cumulative binomial
sum exceeds `bound` (the loop overshoots by one and decrements), i.e.
up to `t` errors are correctable in a block of `n` bits; the maximum
correctable bit error rate is `t / n`. `scipy.special.binom` returns
floats, but they are exact for the block sizes involved, so `Nat.choose`
models it faithfully. -/
def maxCorrectableT (k n : Nat) : Nat :=
  vgLoop n (2 ^ (n - k)) (n + 2) 0 0 - 1

/-- The maximum correctable bit error rate `t / n` as a rational. -/
def maxCorrectableBer (k n : Nat) : ℚ :=
  (maxCorrectableT k n : ℚ) / (n : ℚ)

/-! ### Physical-layer receive decision (`stack.py`, `SimplePhy._receive`) -/

/-- The completion step of `SimplePhy._receive`: after the transmission
has completed, round the accumulated (fractional) bit error count to an
integer — the single rounding in the procedure — divide by the packet's
total bit size to obtain the final bit error rate, and deliver the
packet upward via the `mac` port unless that rate exceeds the maximum
correctable BER, in which case nothing is delivered (the drop is only
logged). The returned list holds the packets sent via the `mac` port. -/
def phyFinishReceive (packet : Nat) (bitSize : Nat) (bitErrorSum : ℚ) (maxBer : ℚ) :
    List Nat :=
  let bitErrors : ℤ := pyRound bitErrorSum
  let bitErrorRate : ℚ := (bitErrors : ℚ) / (bitSize : ℚ)
  if maxBer < bitErrorRate then [] else [packet]

/-! ### Attenuation model factory (`physical.py`, `AttenuationModelFactory`) -/

/-- Devices requesting attenuation models, identified by index. -/
abbrev DevId := Nat

/-- The `frozenset((deviceA, deviceB))` dictionary key: the unordered
pair, normalized. -/
def pairKey (a b : DevId) : DevId × DevId :=
  if a ≤ b then (a, b) else (b, a)

/-- The factory state: the `_instances` cache mapping unordered device
pairs to attenuation-model instances (instances are identified by their
allocation number), the next allocation number, and the log of keys in
allocation order (one log entry per `AttenuationModel` constructed). -/
structure Factory where
  instances : List ((DevId × DevId) × Nat)
  nextId : Nat
  created : List (DevId × DevId)
deriving DecidableEq, Repr

/-- The factory as set up by `AttenuationModelFactory.__init__`: an
empty instance cache. -/
def Factory.init : Factory :=
  ⟨[], 0, []⟩

/-- Association-list lookup of a cached instance. -/
def Factory.lookup (f : Factory) (key : DevId × DevId) : Option Nat :=
  (f.instances.find? (fun p => p.1 = key)).map (fun p => p.2)

/-- `AttenuationModelFactory.getInstance`: look up the unordered device
pair in the `_instances` cache; on a hit return the cached instance, on
a miss construct a new instance (`_initInstance`), cache it under the
pair, and return it. -/
def Factory.getInstance (f : Factory) (a b : DevId) : Nat × Factory :=
  let key := pairKey a b
  match f.lookup key with
  | some i => (i, f)
  | none =>
    (f.nextId, ⟨(key, f.nextId) :: f.instances, f.nextId + 1, f.created ++ [key]⟩)

/-- Running a sequence of `getInstance` requests against the factory,
returning the final state. `FrequencyBand.getAttenuationModel` forwards
each request to `getInstance` unchanged. -/
def Factory.run (f : Factory) : List (DevId × DevId) → Factory
  | [] => f
  | (a, b) :: rest => Factory.run (f.getInstance a b).2 rest

/-- The factory invariant: the allocation log holds no duplicates, and
a key has been allocated exactly when the cache holds an instance for
it. -/
def FactoryInv (f : Factory) : Prop :=
  f.created.Nodup ∧ ∀ k, k ∈ f.created ↔ (f.lookup k).isSome = true

/-! ### Frequency band transmission registry (`physical.py`, `FrequencyBand`) -/

/-- One in-flight transmission: its start time and its stop time
(`startTime + duration`), in simulated seconds. -/
structure Transmission where
  startTime : ℚ
  stopTime : ℚ
deriving DecidableEq, Repr

/-- `Transmission.completed`: the current simulation time has reached
the stop time. -/
def Transmission.completed (now : ℚ) (t : Transmission) : Prop :=
  t.stopTime ≤ now

instance (now : ℚ) (t : Transmission) : Decidable (t.completed now) :=
  inferInstanceAs (Decidable (t.stopTime ≤ now))

/-- `FrequencyBand._removePastTransmissions`: pop transmissions from the
front of the deque while the front transmission has completed. -/
def removePastTransmissions (now : ℚ) (ts : List Transmission) : List Transmission :=
  ts.dropWhile (fun t => decide (t.completed now))

/-- `FrequencyBand._removeFirstPastTransmission`: pop the front
transmission if it has completed. -/
def removeFirstPastTransmission (now : ℚ) : List Transmission → List Transmission
  | [] => []
  | t :: rest => if t.completed now then rest else t :: rest

/-- `FrequencyBand.getActiveTransmissions`: run the cleanup, then return
the remaining deque as a list. -/
def getActiveTransmissions (now : ℚ) (ts : List Transmission) : List Transmission :=
  removePastTransmissions now ts

/-- `FrequencyBand.transmit`: run the single-step cleanup, then append a
new transmission starting now. -/
def transmit (now duration : ℚ) (ts : List Transmission) : List Transmission :=
  removeFirstPastTransmission now ts ++ [⟨now, now + duration⟩]

/-! ### MAC address generation (`mac_layers.py`, `newUniqueMacAddress`;
`stack.py`, `SimpleMac.newMacAddress`) -/

/-- One call to `newUniqueMacAddress` (identically,
`SimpleMac.newMacAddress`) with the current counter value: the counter
is incremented first; writing it into the last cell of a fresh 6-byte
`bytearray` succeeds only for values below 256 — larger values make the
assignment raise `ValueError`, modelled by `none`. -/
def newMacAddress (counter : Nat) : Option (List Nat) × Nat :=
  let c := counter + 1
  (if c < 256 then some [0, 0, 0, 0, 0, c] else none, c)

/-- A sequence of `n` calls to `newMacAddress` starting from counter
value `c`: the list of results in call order, and the final counter. -/
def macCalls : Nat → Nat → List (Option (List Nat)) × Nat
  | 0, c => ([], c)
  | n + 1, c =>
    let (r, c1) := newMacAddress c
    let (rest, c2) := macCalls n c1
    (r :: rest, c2)

end Gymwipe

namespace Gymwipe

/-! ### Theorems: TDMA schedule construction and spans (C2, C3) -/

/-- C2 (counterexample): the claimed compression result is wrong on the
code: for the action list `[(A,0),(A,0),(B,1),(B,0)]` the produced
entries are not `[(1,A,0),(3,B,1)]` — the constructor compares whole
`(device, flag)` actions, so `(B,1)` and `(B,0)` start separate runs. -/
theorem tdmaSchedule_example_claim_false :
    ¬ ((mkTDMASchedule [("A", 0), ("A", 0), ("B", 1), ("B", 0)]).entries =
        [⟨1, "A", 0⟩, ⟨3, "B", 1⟩] ∧
       (mkTDMASchedule [("A", 0), ("A", 0), ("B", 1), ("B", 0)]).endMarker = 5) := by
  decide

/-- C2 (amended): constructing a `TDMASchedule` from the action list
`[(A,0),(A,0),(B,1),(B,0)]` produces exactly the run entries
`[(1,A,0),(3,B,1),(4,B,0)]` — consecutive slots are merged only when
both device and flag agree — followed by the end marker `5` (one past
the last assigned slot), and `get_end_time()` returns that marker. -/
theorem tdmaSchedule_example :
    (mkTDMASchedule [("A", 0), ("A", 0), ("B", 1), ("B", 0)]).entries =
      [⟨1, "A", 0⟩, ⟨3, "B", 1⟩, ⟨4, "B", 0⟩] ∧
    (mkTDMASchedule [("A", 0), ("A", 0), ("B", 1), ("B", 0)]).endMarker = 5 ∧
    (mkTDMASchedule [("A", 0), ("A", 0), ("B", 1), ("B", 0)]).getEndTime = 5 := by
  decide

/-- The scanning loop of `get_next_relevant_timespan` returns exactly
the first span of the schedule that belongs to the requested device and
starts strictly after `lastStep`. -/
theorem findTimespan_eq_find? (entries : List Entry) (endMarker : Nat) (mac : Dev)
    (lastStep : Nat) :
    findTimespan entries endMarker mac lastStep =
      ((spansOf entries endMarker).find?
        (fun sp => decide (sp.2.2 = mac ∧ lastStep < sp.1))).map
        (fun sp => (sp.1, sp.2.1)) := by
  induction entries with
  | nil => rfl
  | cons e rest ih =>
    simp only [findTimespan, spansOf, List.find?]
    split
    · rename_i h
      rw [decide_eq_true h]
      rfl
    · rename_i h
      rw [decide_eq_false h]
      exact ih

/-- C3 (counterexample): for the schedule built from
`[(A,0),(A,0),(B,1),(B,0)]`, `get_next_relevant_timespan(B, 0)` does
not return `[3,5]`: the entry `(4,B,0)` exists, so the span for `B`
starting at slot 3 ends at the next entry's start, 4. -/
theorem timespan_example_claim_false :
    ¬ ((mkTDMASchedule [("A", 0), ("A", 0), ("B", 1), ("B", 0)]).getNextRelevantTimespan
        "B" 0 = some (3, 5)) := by
  decide

/-- C3 (amended): for the schedule built from `[(A,0),(A,0),(B,1),(B,0)]`
and device `B`, `get_next_relevant_timespan(B, 0)` returns `[3,4]`, a
call with `afterSlot = 3` returns `[4,5]`, and a call with
`afterSlot = 4` returns none; in general the method scans entries in
order and returns the first span `[start, nextEntryStart)` for the given
device whose start is strictly greater than `afterSlot`, or none if no
such entry exists. -/
theorem timespan_scanning :
    (mkTDMASchedule [("A", 0), ("A", 0), ("B", 1), ("B", 0)]).getNextRelevantTimespan
      "B" 0 = some (3, 4) ∧
    (mkTDMASchedule [("A", 0), ("A", 0), ("B", 1), ("B", 0)]).getNextRelevantTimespan
      "B" 3 = some (4, 5) ∧
    (mkTDMASchedule [("A", 0), ("A", 0), ("B", 1), ("B", 0)]).getNextRelevantTimespan
      "B" 4 = none ∧
    (∀ (s : TDMASchedule) (mac : Dev) (afterSlot : Nat),
      s.getNextRelevantTimespan mac afterSlot =
        ((spansOf s.entries s.endMarker).find?
          (fun sp => decide (sp.2.2 = mac ∧ afterSlot < sp.1))).map
          (fun sp => (sp.1, sp.2.1))) := by
  refine ⟨by decide, by decide, by decide, ?_⟩
  intro s mac afterSlot
  exact findTimespan_eq_find? s.entries s.endMarker mac afterSlot

/-! ### Theorems: string comparison in `get_next_control_slot` (C9) -/

/-- C9: `get_next_control_slot` compares slot-index tokens as raw
strings, lexicographically; for the schedule built from nine `(A,0)`
slots followed by `(C,1)` — which contains the actuator entry
`(10, C, 1)` — a call with `last_control_slot = "9"` returns `None`,
because the token `"10"` is not lexicographically greater than `"9"`
although `10 > 9` numerically. -/
theorem controlSlot_string_comparison :
    (mkTDMASchedule (List.replicate 9 ("A", 0) ++ [("C", 1)])).entries =
      [⟨1, "A", 0⟩, ⟨10, "C", 1⟩] ∧
    (⟨10, "C", 1⟩ : Entry) ∈
      (mkTDMASchedule (List.replicate 9 ("A", 0) ++ [("C", 1)])).entries ∧
    "C" ∈ ["C"] ∧
    9 < 10 ∧
    pyStrLt "9" (Nat.repr 10) = false ∧
    getNextControlSlot
      (mkTDMASchedule (List.replicate 9 ("A", 0) ++ [("C", 1)])).entries ["C"] "9" =
      none := by
  decide

/-! ### Theorems: schedule encoding lengths (C5) -/

/-- The compressed-branch loop charges 7 bytes per device not yet in the
`already_in` accumulator and 3 bytes per slot of an already-seen
device. -/
theorem tdmaEncodeCompressedLoop_eq (acc : List Dev) (l : List (Dev × Nat)) :
    tdmaEncodeCompressedLoop acc l =
      7 * ((l.map Prod.fst).toFinset \ acc.toFinset).card +
        3 * (l.length - ((l.map Prod.fst).toFinset \ acc.toFinset).card) := by
  induction l generalizing acc with
  | nil => simp [tdmaEncodeCompressedLoop]
  | cons p rest ih =>
    obtain ⟨d, fl⟩ := p
    have hbound : ∀ X : Finset Dev,
        ((rest.map Prod.fst).toFinset \ X).card ≤ rest.length := by
      intro X
      calc ((rest.map Prod.fst).toFinset \ X).card
          ≤ (rest.map Prod.fst).toFinset.card := Finset.card_le_card Finset.sdiff_subset
        _ ≤ (rest.map Prod.fst).length := (rest.map Prod.fst).toFinset_card_le
        _ = rest.length := List.length_map rest Prod.fst
    simp only [tdmaEncodeCompressedLoop, List.map_cons, List.toFinset_cons, List.length_cons]
    by_cases hd : d ∈ acc
    · rw [if_pos hd]
      have hins : insert d (rest.map Prod.fst).toFinset \ acc.toFinset =
          (rest.map Prod.fst).toFinset \ acc.toFinset := by
        ext x
        simp only [Finset.mem_sdiff, Finset.mem_insert]
        constructor
        · rintro ⟨hx | hx, hx2⟩
          · exact absurd (hx ▸ List.mem_toFinset.mpr hd) hx2
          · exact ⟨hx, hx2⟩
        · rintro ⟨hx, hx2⟩
          exact ⟨Or.inr hx, hx2⟩
      rw [hins, ih acc]
      have := hbound acc.toFinset
      omega
    · rw [if_neg hd]
      rw [ih (d :: acc)]
      have hda : d ∉ acc.toFinset := fun hmem => hd (List.mem_toFinset.mp hmem)
      have hcard : (insert d (rest.map Prod.fst).toFinset \ acc.toFinset).card =
          ((rest.map Prod.fst).toFinset \ (d :: acc).toFinset).card + 1 := by
        have h1 : insert d (rest.map Prod.fst).toFinset \ acc.toFinset =
            insert d ((rest.map Prod.fst).toFinset \ acc.toFinset) := by
          ext x
          by_cases hx : x = d <;>
            simp [hx, Finset.mem_sdiff, Finset.mem_insert, hda]
        have h2 : (rest.map Prod.fst).toFinset \ (d :: acc).toFinset =
            ((rest.map Prod.fst).toFinset \ acc.toFinset).erase d := by
          ext x
          by_cases hx : x = d <;>
            simp [hx, Finset.mem_sdiff, Finset.mem_erase, List.toFinset_cons]
        have h3 : insert d ((rest.map Prod.fst).toFinset \ acc.toFinset) =
            insert d (((rest.map Prod.fst).toFinset \ acc.toFinset).erase d) := by
          ext x
          by_cases hx : x = d <;> simp [hx]
        rw [h1, h2, h3,
          Finset.card_insert_of_not_mem (Finset.not_mem_erase _ _)]
      have := hbound (d :: acc).toFinset
      omega

/-- C5: `tdma_encode` with `compressed=False` returns 7 bytes per run
entry plus 1 trailer byte (22 bytes for a schedule with 3 entries);
with `compressed=True` it charges 7 bytes for a device's first slot and
3 bytes for every repeated slot of an already-seen device, plus 1
trailer byte (18 bytes for slot assignments `[A,A,B]`); `csma_encode`
returns 7 bytes per `(device, probability)` pair plus 1 trailer byte
(22 bytes for 3 pairs). -/
theorem schedule_encoding_lengths :
    (∀ s : TDMASchedule, tdmaEncode s false = 7 * s.entries.length + 1) ∧
    tdmaEncode (mkTDMASchedule [("A", 0), ("B", 0), ("C", 0)]) false = 22 ∧
    (∀ s : TDMASchedule,
      tdmaEncode s true =
        7 * (s.action.map Prod.fst).toFinset.card +
          3 * (s.action.length - (s.action.map Prod.fst).toFinset.card) + 1) ∧
    tdmaEncode (mkTDMASchedule [("A", 0), ("A", 0), ("B", 0)]) true = 18 ∧
    (∀ s : CSMASchedule, csmaEncode s = 7 * s.action.length + 1) ∧
    csmaEncode ⟨[("A", 3 / 10), ("B", 3 / 10), ("C", 4 / 10)], 5⟩ = 22 := by
  refine ⟨?_, by decide, ?_, by decide, ?_, by decide⟩
  · intro s
    simp only [tdmaEncode, tdmaLines, if_neg (Bool.false_ne_true), List.length_append,
      List.length_map, List.length_cons, List.length_nil]
    omega
  · intro s
    simp [tdmaEncode, tdmaEncodeCompressedLoop_eq [] s.action]
    omega
  · intro s
    simp only [csmaEncode, csmaLines, List.length_append, List.length_map,
      List.length_cons, List.length_nil]
    omega

/-! ### Theorems: CSMA schedule validity (C4, modelled from the spec) -/

/-- `pyRound` is the identity on integers. -/
theorem pyRound_intCast (z : ℤ) : pyRound (z : ℚ) = z := by
  have hf : ⌊(z : ℚ)⌋ = z := Int.floor_intCast z
  simp only [pyRound, hf]
  norm_num

/-- Rounding `1.0` to one decimal gives `1.0`. -/
theorem pyRound1_one : pyRound1 (1 : ℚ) = 1 := by
  have h10 : (10 : ℚ) * 1 = ((10 : ℤ) : ℚ) := by norm_num
  rw [pyRound1, h10, pyRound_intCast]
  norm_num

/-- Rounding `0.9` to one decimal gives `0.9`, not `1.0`. -/
theorem pyRound1_nine_tenths : pyRound1 (9 / 10 : ℚ) ≠ 1 := by
  have h9 : (10 : ℚ) * (9 / 10) = ((9 : ℤ) : ℚ) := by norm_num
  rw [pyRound1, h9, pyRound_intCast]
  norm_num

/-- C4: constructing a CSMA schedule from per-device probabilities whose
sum does not round to `1.0` fails and yields no schedule object, so the
schedule is never transmitted; in particular probabilities
`[0.3, 0.3, 0.4]` produce a valid schedule while `[0.3, 0.3, 0.3]`
produce no schedule. Settled against `mkCSMAScheduleChecked`, which is
modelled from the spec because the `RandomCSMAScheduler` construction
path is absent from the source tree. -/
theorem csma_probability_validity :
    (∀ (action : List (Dev × ℚ)) (length : Nat),
      mkCSMAScheduleChecked action length = none ↔
        pyRound1 (action.map (fun p => p.2)).sum ≠ 1) ∧
    (mkCSMAScheduleChecked [("A", 3 / 10), ("B", 3 / 10), ("C", 4 / 10)] 5).isSome =
      true ∧
    mkCSMAScheduleChecked [("A", 3 / 10), ("B", 3 / 10), ("C", 3 / 10)] 5 = none := by
  refine ⟨?_, ?_, ?_⟩
  · intro action length
    by_cases h : pyRound1 (action.map (fun p => p.2)).sum = 1 <;>
      simp [mkCSMAScheduleChecked, h]
  · have hsum : (([("A", 3 / 10), ("B", 3 / 10), ("C", 4 / 10)] :
        List (Dev × ℚ)).map (fun p => p.2)).sum = 1 := by
      norm_num
    have hcond : pyRound1 ((([("A", 3 / 10), ("B", 3 / 10), ("C", 4 / 10)] :
        List (Dev × ℚ)).map (fun p => p.2)).sum) = 1 := by
      rw [hsum, pyRound1_one]
    simp only [mkCSMAScheduleChecked]
    rw [if_pos hcond]
    rfl
  · have hsum : (([("A", 3 / 10), ("B", 3 / 10), ("C", 3 / 10)] :
        List (Dev × ℚ)).map (fun p => p.2)).sum = 9 / 10 := by
      norm_num
    have hcond : ¬ pyRound1 ((([("A", 3 / 10), ("B", 3 / 10), ("C", 3 / 10)] :
        List (Dev × ℚ)).map (fun p => p.2)).sum) = 1 := by
      rw [hsum]
      exact pyRound1_nine_tenths
    simp only [mkCSMAScheduleChecked]
    rw [if_neg hcond]

/-! ### Theorems: physical-layer receive decision (C1) -/

/-- C1: when the physical layer finishes receiving a transmission, it
rounds the accumulated bit-error count to an integer exactly once,
divides by the packet's total bit size, and delivers the packet upward
via the `mac` port if and only if this final bit-error rate does not
exceed the MCS's `maxCorrectableBer()`; a frame whose rate exceeds the
threshold is dropped (nothing delivered), and a frame at or below the
threshold is delivered exactly once. For the BPSK default code rate
`3/4` the threshold is `1/4`. -/
theorem phy_receive_decision (packet bitSize : Nat) (bitErrorSum : ℚ) (k n : Nat) :
    (phyFinishReceive packet bitSize bitErrorSum (maxCorrectableBer k n) =
      if (pyRound bitErrorSum : ℚ) / (bitSize : ℚ) ≤ maxCorrectableBer k n then [packet]
      else []) ∧
    (packet ∈ phyFinishReceive packet bitSize bitErrorSum (maxCorrectableBer k n) ↔
      (pyRound bitErrorSum : ℚ) / (bitSize : ℚ) ≤ maxCorrectableBer k n) ∧
    (phyFinishReceive packet bitSize bitErrorSum (maxCorrectableBer k n)).count packet =
      (if (pyRound bitErrorSum : ℚ) / (bitSize : ℚ) ≤ maxCorrectableBer k n then 1
       else 0) ∧
    maxCorrectableBer 3 4 = 1 / 4 := by
  have key : phyFinishReceive packet bitSize bitErrorSum (maxCorrectableBer k n) =
      if (pyRound bitErrorSum : ℚ) / (bitSize : ℚ) ≤ maxCorrectableBer k n then [packet]
      else [] := by
    by_cases h : (pyRound bitErrorSum : ℚ) / (bitSize : ℚ) ≤ maxCorrectableBer k n
    · simp [phyFinishReceive, h, not_lt.mpr h]
    · simp [phyFinishReceive, h, not_le.mp h]
  have hT : maxCorrectableT 3 4 = 1 := by decide
  refine ⟨key, ?_, ?_, by rw [maxCorrectableBer, hT]; norm_num⟩
  · rw [key]
    split <;> rename_i h <;> simp [h]
  · rw [key]
    split <;> rename_i h <;> simp [h]

/-! ### Theorems: MAC address generation (C10) -/

/-- The results of `n` successive calls to `newMacAddress`, in closed
form. -/
theorem macCalls_eq (n : Nat) : ∀ c : Nat,
    macCalls n c = ((List.range n).map (fun i => (newMacAddress (c + i)).1), c + n) := by
  induction n with
  | zero =>
    intro c
    simp [macCalls]
  | succ n ih =>
    intro c
    have step : macCalls (n + 1) c =
        ((newMacAddress c).1 :: (macCalls n (c + 1)).1, (macCalls n (c + 1)).2) := rfl
    have h2 : (List.range (n + 1)).map (fun i => (newMacAddress (c + i)).1) =
        (newMacAddress c).1 ::
          (List.range n).map (fun i => (newMacAddress (c + 1 + i)).1) := by
      rw [List.range_succ_eq_map, List.map_cons, List.map_map]
      congr 1
      congr 1
      funext i
      simp only [Function.comp_apply]
      congr 2
      omega
    rw [step, ih (c + 1), h2]
    congr 1
    omega

/-- C10: the MAC address generators write the running counter only into
the last of the 6 address bytes, so the first 255 calls return
pairwise-distinct addresses whose first five bytes are zero and whose
last byte equals the call number (never the reserved all-zero address);
the 256th call errors because the counter value 256 no longer fits in a
single byte. -/
theorem mac_address_uniqueness (i j : Nat) (hi1 : 1 ≤ i) (hi2 : i ≤ 255)
    (hj1 : 1 ≤ j) (hj2 : j ≤ 255) (hij : i ≠ j) :
    (macCalls 256 0).1.get? (i - 1) = some (some [0, 0, 0, 0, 0, i]) ∧
    ([0, 0, 0, 0, 0, i] : List Nat) ≠ [0, 0, 0, 0, 0, j] ∧
    ([0, 0, 0, 0, 0, i] : List Nat) ≠ List.replicate 6 0 ∧
    (macCalls 256 0).1.get? 255 = some none := by
  have hfor := macCalls_eq 256 0
  refine ⟨?_, by simp [hij], ?_, ?_⟩
  · have h1 : (macCalls 256 0).1.get? (i - 1) =
        some ((newMacAddress (0 + (i - 1))).1) := by
      rw [hfor, List.get?_map, List.get?_range (show i - 1 < 256 by omega)]
      rfl
    rw [h1]
    have e : 0 + (i - 1) + 1 = i := by omega
    simp only [newMacAddress, e]
    rw [if_pos (show i < 256 by omega)]
  · have : i ≠ 0 := by omega
    simp [List.replicate, this]
  · have h1 : (macCalls 256 0).1.get? 255 =
        some ((newMacAddress (0 + 255)).1) := by
      rw [hfor, List.get?_map, List.get?_range (show 255 < 256 by omega)]
      rfl
    rw [h1]
    simp [newMacAddress]

/-- Witness for C10 at the first and second call. -/
theorem mac_address_uniqueness_witness :
    (macCalls 256 0).1.get? 0 = some (some [0, 0, 0, 0, 0, 1]) ∧
    ([0, 0, 0, 0, 0, 1] : List Nat) ≠ [0, 0, 0, 0, 0, 2] ∧
    ([0, 0, 0, 0, 0, 1] : List Nat) ≠ List.replicate 6 0 ∧
    (macCalls 256 0).1.get? 255 = some none :=
  mac_address_uniqueness 1 2 (by decide) (by decide) (by decide) (by decide)
    (by decide)

/-! ### Theorems: round-robin TDMA scheduler (C7) -/

/-- Unfolding one slot generation. -/
theorem rrGen_succ (devices actuators : List Dev) (n : Nat) (s : RRState) :
    rrGen devices actuators (n + 1) s =
      ((rrStep devices actuators s).1 ::
        (rrGen devices actuators n (rrStep devices actuators s).2).1,
       (rrGen devices actuators n (rrStep devices actuators s).2).2) :=
  rfl

/-- For a non-actuator at the cursor the loop body emits flag `0` and
advances the cursor cyclically. -/
theorem rrStep_no_actuator (devices actuators : List Dev) (c : Nat)
    (hfree : ∀ d ∈ devices, d ∉ actuators) (hc : c < devices.length) :
    rrStep devices actuators ⟨c, false⟩ =
      ((devices.getD c "", 0), ⟨(c + 1) % devices.length, false⟩) := by
  have hmem : devices.getD c "" ∈ devices := by
    rw [List.getD_eq_getElem devices "" hc]
    exact List.getElem_mem hc
  have hnot : devices.getD c "" ∉ actuators := hfree _ hmem
  have hadv : (if c = devices.length - 1 then 0 else c + 1) =
      (c + 1) % devices.length := by
    by_cases he : c = devices.length - 1
    · rw [if_pos he]
      have h1 : c + 1 = devices.length := by omega
      rw [h1, Nat.mod_self]
    · rw [if_neg he]
      have h1 : c + 1 < devices.length := by omega
      rw [Nat.mod_eq_of_lt h1]
  simp only [List.getD_eq_getElem?_getD] at hnot ⊢
  simp [rrStep, hnot, hadv]

/-- With no actuators among the devices, `N` generated slots assign the
devices cyclically with flag `0` and move the cursor forward by `N`
modulo the list length. -/
theorem rrGen_no_actuators (devices actuators : List Dev)
    (hfree : ∀ d ∈ devices, d ∉ actuators) (hL : 0 < devices.length) :
    ∀ (N c : Nat), c < devices.length →
      rrGen devices actuators N ⟨c, false⟩ =
        ((List.range N).map
          (fun i => (devices.getD ((c + i) % devices.length) "", 0)),
         ⟨(c + N) % devices.length, false⟩) := by
  intro N
  induction N with
  | zero =>
    intro c hc
    simp [rrGen, Nat.mod_eq_of_lt hc]
  | succ N ih =>
    intro c hc
    have hmod2 : ∀ m : Nat,
        ((c + 1) % devices.length + m) % devices.length =
          (c + 1 + m) % devices.length := by
      intro m
      conv_lhs => rw [Nat.add_mod]
      conv_rhs => rw [Nat.add_mod]
      rw [Nat.mod_mod_of_dvd _ dvd_rfl]
    have hlist : (List.range (N + 1)).map
        (fun i => (devices.getD ((c + i) % devices.length) "", 0)) =
        (devices.getD c "", 0) ::
          (List.range N).map
            (fun i => (devices.getD ((c + 1 + i) % devices.length) "", 0)) := by
      rw [List.range_succ_eq_map, List.map_cons, List.map_map]
      congr 1
      · rw [Nat.add_zero, Nat.mod_eq_of_lt hc]
      · congr 1
        funext i
        simp only [Function.comp_apply, Nat.succ_eq_add_one]
        have e : c + (i + 1) = c + 1 + i := by omega
        rw [e]
    rw [rrGen_succ, rrStep_no_actuator devices actuators c hfree hc]
    rw [ih ((c + 1) % devices.length) (Nat.mod_lt _ hL)]
    rw [hlist]
    have e2 : c + 1 + N = c + (N + 1) := by omega
    simp only [hmod2]
    rw [e2]

/-- Cursor component of `rrGen_no_actuators`. -/
theorem rrGen_no_actuators_snd (devices actuators : List Dev)
    (hfree : ∀ d ∈ devices, d ∉ actuators) (hL : 0 < devices.length) (N : Nat) :
    (rrGen devices actuators N ⟨0, false⟩).2 = ⟨N % devices.length, false⟩ := by
  rw [rrGen_no_actuators devices actuators hfree hL N 0 hL, Nat.zero_add]

/-- Slot-list component of `rrGen_no_actuators`. -/
theorem rrGen_no_actuators_fst (devices actuators : List Dev)
    (hfree : ∀ d ∈ devices, d ∉ actuators) (hL : 0 < devices.length) (N : Nat) :
    (rrGen devices actuators N ⟨0, false⟩).1 =
      (List.range N).map
        (fun i => (devices.getD (i % devices.length) "", 0)) := by
  rw [rrGen_no_actuators devices actuators hfree hL N 0 hL]
  show (List.range N).map
      (fun i => (devices.getD ((0 + i) % devices.length) "", 0)) =
    (List.range N).map (fun i => (devices.getD (i % devices.length) "", 0))
  simp only [Nat.zero_add]

/-- Among the first `N` naturals, at least `⌊N / L⌋` are congruent to
`j` modulo `L`. -/
theorem countP_mod_range (L j : Nat) (hL : 0 < L) (hj : j < L) (N : Nat) :
    N / L ≤ (List.range N).countP (fun i => decide (i % L = j)) := by
  have hq : ∀ q : Nat, q ≤ (List.range (q * L)).countP (fun i => decide (i % L = j)) := by
    intro q
    induction q with
    | zero => simp
    | succ q ih =>
      have hr : List.range ((q + 1) * L) =
          List.range (q * L) ++ (List.range L).map (fun x => q * L + x) := by
        rw [show (q + 1) * L = q * L + L by ring]
        exact List.range_add (q * L) L
      rw [hr, List.countP_append]
      have hone : 0 < ((List.range L).map (fun x => q * L + x)).countP
          (fun i => decide (i % L = j)) := by
        rw [List.countP_pos]
        refine ⟨q * L + j, List.mem_map.mpr ⟨j, List.mem_range.mpr hj, rfl⟩, ?_⟩
        simp only [decide_eq_true_eq]
        rw [Nat.add_comm (q * L) j, Nat.add_mul_mod_self_right, Nat.mod_eq_of_lt hj]
      omega
  calc N / L ≤ (List.range (N / L * L)).countP (fun i => decide (i % L = j)) :=
        hq (N / L)
    _ ≤ (List.range N).countP (fun i => decide (i % L = j)) :=
        List.Sublist.countP_le _ (List.range_sublist.mpr (Nat.div_mul_le_self N L))

/-- Every device index receives at least `⌊N / L⌋` of the first `N`
generated slots when no actuators are present. -/
theorem rr_count_ge (devices actuators : List Dev)
    (hfree : ∀ d ∈ devices, d ∉ actuators) (hL : 0 < devices.length)
    (N j : Nat) (hj : j < devices.length) :
    N / devices.length ≤
      (rrGen devices actuators N ⟨0, false⟩).1.countP
        (fun sl => decide (sl = (devices.getD j "", 0))) := by
  rw [rrGen_no_actuators_fst devices actuators hfree hL N, List.countP_map]
  refine le_trans (countP_mod_range devices.length j hL hj N) ?_
  refine List.countP_mono_left ?_
  intro i _ hp
  have hij : i % devices.length = j := of_decide_eq_true hp
  simp only [Function.comp_apply, decide_eq_true_eq, hij]

/-- Generating `a + b` slots is generating `a` slots and then `b` more
from the state left behind: the cursor and duty-cycle flag persist
across `next_schedule` calls. -/
theorem rrGen_add (devices actuators : List Dev) (a b : Nat) (s : RRState) :
    rrGen devices actuators (a + b) s =
      ((rrGen devices actuators a s).1 ++
        (rrGen devices actuators b (rrGen devices actuators a s).2).1,
       (rrGen devices actuators b (rrGen devices actuators a s).2).2) := by
  induction a generalizing s with
  | zero =>
    rw [Nat.zero_add]
    simp [rrGen]
  | succ a ih =>
    have h1 : a + 1 + b = (a + b) + 1 := by omega
    rw [h1, rrGen_succ devices actuators (a + b) s,
      rrGen_succ devices actuators a s, ih (rrStep devices actuators s).2]
    simp

/-- An actuator at the cursor with a clear duty-cycle flag receives two
consecutive slots, flagged `1` then `0`, and only then does the cursor
advance past it. -/
theorem rrGen_actuator_pair (devices actuators : List Dev) (s : RRState)
    (hact : devices.getD s.nextDevice "" ∈ actuators) (hw : s.wasActuator = false) :
    rrGen devices actuators 2 s =
      ([(devices.getD s.nextDevice "", 1), (devices.getD s.nextDevice "", 0)],
       ⟨if s.nextDevice = devices.length - 1 then 0 else s.nextDevice + 1, false⟩) := by
  have hact2 : devices.getD s.nextDevice "" ∈ actuators := hact
  simp only [List.getD_eq_getElem?_getD] at hact2
  have hs1 : rrStep devices actuators s =
      ((devices.getD s.nextDevice "", 1), ⟨s.nextDevice, true⟩) := by
    simp only [List.getD_eq_getElem?_getD]
    simp [rrStep, hact2, hw]
  have hs2 : rrStep devices actuators ⟨s.nextDevice, true⟩ =
      ((devices.getD s.nextDevice "", 0),
       ⟨if s.nextDevice = devices.length - 1 then 0 else s.nextDevice + 1, false⟩) := by
    simp only [List.getD_eq_getElem?_getD]
    simp [rrStep, hact2]
  have h2 : (2 : Nat) = 1 + 1 := rfl
  have h1 : (1 : Nat) = 0 + 1 := rfl
  rw [h2, rrGen_succ, hs1]
  rw [h1, rrGen_succ, hs2]
  simp [rrGen]

/-- C7: for a `RoundRobinTDMAScheduler` over a device list of length `L`
containing no actuators, after `N` total slots generated from the
initial state the cursor equals `N mod L` (with the duty-cycle flag
clear) and every device index has been assigned at least `⌊N / L⌋`
slots; generating `a + b` slots equals generating `a` and then `b` from
the carried-over state, so the cursor persists across `next_schedule`
calls; and an actuator at the cursor is assigned two consecutive slots
flagged `1` then `0` before the cursor advances past it. -/
theorem roundrobin_scheduler (devices actuators : List Dev) (N j a b : Nat)
    (s : RRState) :
    ((∀ d ∈ devices, d ∉ actuators) → 0 < devices.length →
      (rrGen devices actuators N ⟨0, false⟩).2 = ⟨N % devices.length, false⟩ ∧
      (j < devices.length →
        N / devices.length ≤
          (rrGen devices actuators N ⟨0, false⟩).1.countP
            (fun sl => decide (sl = (devices.getD j "", 0))))) ∧
    rrGen devices actuators (a + b) s =
      ((rrGen devices actuators a s).1 ++
        (rrGen devices actuators b (rrGen devices actuators a s).2).1,
       (rrGen devices actuators b (rrGen devices actuators a s).2).2) ∧
    (devices.getD s.nextDevice "" ∈ actuators → s.wasActuator = false →
      rrGen devices actuators 2 s =
        ([(devices.getD s.nextDevice "", 1), (devices.getD s.nextDevice "", 0)],
         ⟨if s.nextDevice = devices.length - 1 then 0 else s.nextDevice + 1,
          false⟩)) := by
  refine ⟨?_, rrGen_add devices actuators a b s, ?_⟩
  · intro hfree hL
    exact ⟨rrGen_no_actuators_snd devices actuators hfree hL N,
      fun hj => rr_count_ge devices actuators hfree hL N j hj⟩
  · intro hact hw
    exact rrGen_actuator_pair devices actuators s hact hw

/-- Witness for C7: two sensors with five slots for the fairness part,
and a sensor/actuator pair with the cursor on the actuator for the
duty-cycle part. -/
theorem roundrobin_scheduler_witness :
    ((rrGen ["s1", "s2"] [] 5 ⟨0, false⟩).2 = ⟨1, false⟩ ∧
     2 ≤ (rrGen ["s1", "s2"] [] 5 ⟨0, false⟩).1.countP
           (fun sl => decide (sl = ("s2", 0)))) ∧
    rrGen ["s1", "a1"] ["a1"] 2 ⟨1, false⟩ =
      ([("a1", 1), ("a1", 0)], ⟨0, false⟩) := by
  have h1 := roundrobin_scheduler ["s1", "s2"] [] 5 1 0 0 ⟨0, false⟩
  have h2 := roundrobin_scheduler ["s1", "a1"] ["a1"] 0 0 0 0 ⟨1, false⟩
  have hfree : ∀ d ∈ ["s1", "s2"], d ∉ ([] : List Dev) := by
    intro d _ hd
    exact List.not_mem_nil d hd
  refine ⟨⟨?_, ?_⟩, ?_⟩
  · exact (h1.1 hfree (by decide)).1
  · exact (h1.1 hfree (by decide)).2 (by decide)
  · exact h2.2.2 (by decide) rfl

/-! ### Theorems: attenuation model cache (C6) -/

/-- The `frozenset` dictionary key does not depend on the argument
order. -/
theorem pairKey_comm (a b : DevId) : pairKey a b = pairKey b a := by
  unfold pairKey
  rcases Nat.le_total a b with h | h
  · by_cases h2 : b ≤ a
    · have hab : a = b := Nat.le_antisymm h h2
      subst hab
      rfl
    · rw [if_pos h, if_neg h2]
  · by_cases h2 : a ≤ b
    · have hab : a = b := Nat.le_antisymm h2 h
      subst hab
      rfl
    · rw [if_neg h2, if_pos h]

/-- `getInstance` behaves identically for both argument orders: same
returned instance, same resulting factory state. -/
theorem getInstance_comm (f : Factory) (a b : DevId) :
    f.getInstance a b = f.getInstance b a := by
  unfold Factory.getInstance
  rw [pairKey_comm]

/-- `getInstance` on a cache hit returns the cached instance and leaves
the factory unchanged. -/
theorem getInstance_lookup_some (f : Factory) (a b : DevId) (i : Nat)
    (hl : f.lookup (pairKey a b) = some i) :
    f.getInstance a b = (i, f) := by
  simp only [Factory.getInstance]
  rw [hl]

/-- `getInstance` on a cache miss allocates a fresh instance, caches it,
and logs the allocation. -/
theorem getInstance_lookup_none (f : Factory) (a b : DevId)
    (hl : f.lookup (pairKey a b) = none) :
    f.getInstance a b =
      (f.nextId,
        ⟨(pairKey a b, f.nextId) :: f.instances, f.nextId + 1,
          f.created ++ [pairKey a b]⟩) := by
  simp only [Factory.getInstance]
  rw [hl]

/-- A single `getInstance` call preserves the factory invariant. -/
theorem factoryInv_step (f : Factory) (a b : DevId) (hf : FactoryInv f) :
    FactoryInv (f.getInstance a b).2 := by
  obtain ⟨hnd, hiff⟩ := hf
  cases hl : f.lookup (pairKey a b) with
  | some i =>
    rw [getInstance_lookup_some f a b i hl]
    exact ⟨hnd, hiff⟩
  | none =>
    rw [getInstance_lookup_none f a b hl]
    refine ⟨?_, ?_⟩
    · have hkey : pairKey a b ∉ f.created := by
        intro hmem
        have hsome := (hiff _).mp hmem
        rw [hl] at hsome
        exact Bool.false_ne_true hsome
      simp [List.nodup_append, hnd, hkey]
    · intro k
      simp only [List.mem_append, List.mem_singleton]
      rw [hiff k]
      unfold Factory.lookup
      simp only [List.find?_cons]
      by_cases hk : pairKey a b = k
      · subst hk
        simp
      · have hd : (decide ((pairKey a b, f.nextId).1 = k)) = false := by
          simp only [decide_eq_false_iff_not]
          exact hk
        rw [hd]
        constructor
        · rintro (h | h)
          · exact h
          · exact absurd h.symm hk
        · exact Or.inl

/-- A `getInstance` call never evicts a cached instance. -/
theorem lookup_isSome_step (f : Factory) (a b : DevId) (k : DevId × DevId)
    (h : (f.lookup k).isSome = true) :
    (((f.getInstance a b).2).lookup k).isSome = true := by
  cases hl : f.lookup (pairKey a b) with
  | some i =>
    rw [getInstance_lookup_some f a b i hl]
    exact h
  | none =>
    rw [getInstance_lookup_none f a b hl]
    unfold Factory.lookup at h ⊢
    simp only [List.find?_cons]
    by_cases hk : pairKey a b = k
    · simp [hk]
    · have hd : (decide ((pairKey a b, f.nextId).1 = k)) = false := by
        simp only [decide_eq_false_iff_not]
        exact hk
      rw [hd]
      exact h

/-- After a `getInstance` call the requested pair is cached. -/
theorem lookup_isSome_after (f : Factory) (a b : DevId) :
    (((f.getInstance a b).2).lookup (pairKey a b)).isSome = true := by
  cases hl : f.lookup (pairKey a b) with
  | some i =>
    rw [getInstance_lookup_some f a b i hl]
    show (f.lookup (pairKey a b)).isSome = true
    rw [hl]
    rfl
  | none =>
    rw [getInstance_lookup_none f a b hl]
    unfold Factory.lookup
    simp [List.find?_cons]

/-- Any request sequence preserves the factory invariant. -/
theorem factoryInv_run (f : Factory) (reqs : List (DevId × DevId)) (hf : FactoryInv f) :
    FactoryInv (f.run reqs) := by
  induction reqs generalizing f with
  | nil => exact hf
  | cons r rest ih =>
    obtain ⟨a, b⟩ := r
    exact ih _ (factoryInv_step f a b hf)

/-- Cached instances survive any request sequence. -/
theorem lookup_isSome_run (f : Factory) (reqs : List (DevId × DevId)) (k : DevId × DevId)
    (h : (f.lookup k).isSome = true) :
    ((f.run reqs).lookup k).isSome = true := by
  induction reqs generalizing f with
  | nil => exact h
  | cons r rest ih =>
    obtain ⟨a, b⟩ := r
    exact ih _ (lookup_isSome_step f a b k h)

/-- Once a pair has been requested, the factory holds an instance for
it. -/
theorem lookup_isSome_of_mem_run (f : Factory) (reqs : List (DevId × DevId))
    (a b : DevId) (hmem : (a, b) ∈ reqs) :
    ((f.run reqs).lookup (pairKey a b)).isSome = true := by
  induction reqs generalizing f with
  | nil => exact absurd hmem (List.not_mem_nil _)
  | cons r rest ih =>
    obtain ⟨x, y⟩ := r
    rcases List.mem_cons.mp hmem with he | ht
    · have hx : x = a := (congrArg Prod.fst he.symm : (x, y).1 = (a, b).1)
      have hy : y = b := (congrArg Prod.snd he.symm : (x, y).2 = (a, b).2)
      subst hx
      subst hy
      exact lookup_isSome_run _ rest _ (lookup_isSome_after f x y)
    · exact ih _ ht

/-- The factory starts out satisfying the invariant. -/
theorem factoryInv_init : FactoryInv Factory.init := by
  constructor
  · exact List.nodup_nil
  · intro k
    simp [Factory.init, Factory.lookup]

/-- In a duplicate-free list, at most one element equals `x`. -/
theorem length_filter_eq_le_one {α : Type} [DecidableEq α] (l : List α) (x : α)
    (h : l.Nodup) : (l.filter (fun k => decide (k = x))).length ≤ 1 := by
  induction l with
  | nil => simp
  | cons a t ih =>
    have hnd := List.nodup_cons.mp h
    by_cases ha : a = x
    · have hnil : t.filter (fun k => decide (k = x)) = [] := by
        rw [List.filter_eq_nil]
        intro b hb
        simp only [decide_eq_true_eq]
        intro hbx
        have hba : b = a := by rw [hbx, ha]
        exact hnd.1 (hba ▸ hb)
      simp [List.filter_cons, ha, hnil]
    · simp only [List.filter_cons, decide_eq_true_eq, ha, if_neg ha]
      exact ih hnd.2

/-- In a duplicate-free list containing `x`, exactly one element equals
`x`. -/
theorem length_filter_eq_one {α : Type} [DecidableEq α] (l : List α) (x : α)
    (h : l.Nodup) (hx : x ∈ l) : (l.filter (fun k => decide (k = x))).length = 1 := by
  have hle := length_filter_eq_le_one l x h
  have hmem : x ∈ l.filter (fun k => decide (k = x)) :=
    List.mem_filter.mpr ⟨hx, by simp⟩
  have hpos := List.length_pos.mpr (List.ne_nil_of_mem hmem)
  omega

/-- C6: for every pair of distinct devices `A` and `B`,
`getAttenuationModel(A, B)` and `getAttenuationModel(B, A)` return the
identical `AttenuationModel` instance — the cache is keyed by the
unordered device pair — and that instance is constructed exactly once
no matter how many times and in which argument order it is requested. -/
theorem attenuation_model_cache (a b : DevId) (hab : a ≠ b)
    (reqs : List (DevId × DevId)) :
    ((Factory.run Factory.init reqs).getInstance a b).1 =
      ((Factory.run Factory.init reqs).getInstance b a).1 ∧
    ((Factory.run Factory.init reqs).getInstance a b).2 =
      ((Factory.run Factory.init reqs).getInstance b a).2 ∧
    ((Factory.run Factory.init reqs).created.filter
      (fun k => decide (k = pairKey a b))).length ≤ 1 ∧
    ((a, b) ∈ reqs ∨ (b, a) ∈ reqs →
      ((Factory.run Factory.init reqs).created.filter
        (fun k => decide (k = pairKey a b))).length = 1) := by
  have hinv := factoryInv_run Factory.init reqs factoryInv_init
  refine ⟨by rw [getInstance_comm], by rw [getInstance_comm], ?_, ?_⟩
  · exact length_filter_eq_le_one _ _ hinv.1
  · intro hmem
    have hsome : ((Factory.run Factory.init reqs).lookup (pairKey a b)).isSome = true := by
      rcases hmem with h | h
      · exact lookup_isSome_of_mem_run Factory.init reqs a b h
      · rw [pairKey_comm]
        exact lookup_isSome_of_mem_run Factory.init reqs b a h
    have hc : pairKey a b ∈ (Factory.run Factory.init reqs).created :=
      (hinv.2 _).mpr hsome
    exact length_filter_eq_one _ _ hinv.1 hc

/-- Witness for C6: devices 1 and 2, requested three times in both
orders. -/
theorem attenuation_model_cache_witness :
    ((Factory.run Factory.init [(1, 2), (2, 1), (1, 2)]).getInstance 1 2).1 =
      ((Factory.run Factory.init [(1, 2), (2, 1), (1, 2)]).getInstance 2 1).1 ∧
    ((Factory.run Factory.init [(1, 2), (2, 1), (1, 2)]).getInstance 1 2).2 =
      ((Factory.run Factory.init [(1, 2), (2, 1), (1, 2)]).getInstance 2 1).2 ∧
    ((Factory.run Factory.init [(1, 2), (2, 1), (1, 2)]).created.filter
      (fun k => decide (k = pairKey 1 2))).length ≤ 1 ∧
    ((Factory.run Factory.init [(1, 2), (2, 1), (1, 2)]).created.filter
      (fun k => decide (k = pairKey 1 2))).length = 1 := by
  have h := attenuation_model_cache 1 2 (by decide) [(1, 2), (2, 1), (1, 2)]
  exact ⟨h.1, h.2.1, h.2.2.1, h.2.2.2 (Or.inl (by decide))⟩

/-! ### Theorems: active-transmission registry (C8) -/

/-- C8 (counterexample): the invariant fails on the code: after a long
transmission `[0,10]` and a later, shorter transmission `[1,5]`, the
call `getActiveTransmissions` at time 6 still returns the transmission
`[1,5]` although its stop time 5 has passed, because completed
transmissions are removed only from the front of the deque and the
still-active front transmission `[0,10]` shields it. -/
theorem activeTransmissions_claim_false :
    Transmission.mk 1 5 ∈ getActiveTransmissions 6 (transmit 1 4 (transmit 0 10 [])) ∧
    ¬ ((6 : ℚ) ≤ (Transmission.mk 1 5).stopTime) := by
  have h1 : transmit 0 10 ([] : List Transmission) = [⟨0, 10⟩] := by
    norm_num [transmit, removeFirstPastTransmission]
  have hc1 : ¬ ((⟨0, 10⟩ : Transmission).completed 1) := by
    norm_num [Transmission.completed]
  have h2 : transmit 1 4 [(⟨0, 10⟩ : Transmission)] = [⟨0, 10⟩, ⟨1, 5⟩] := by
    norm_num [transmit, removeFirstPastTransmission, hc1]
  have hc6 : ¬ ((⟨0, 10⟩ : Transmission).completed 6) := by
    norm_num [Transmission.completed]
  have h3 : getActiveTransmissions 6 [(⟨0, 10⟩ : Transmission), ⟨1, 5⟩] =
      [⟨0, 10⟩, ⟨1, 5⟩] := by
    simp [getActiveTransmissions, removePastTransmissions, List.dropWhile_cons, hc6]
  refine ⟨?_, by norm_num⟩
  rw [h1, h2, h3]
  simp

/-- C8 (amended): every transmission returned by
`getActiveTransmissions` satisfies `startTime ≤ now` (all registered
transmissions started in the past), the returned list is a suffix of
the registry deque — completed transmissions are removed only from its
front — and the first returned transmission, if any, satisfies
`now < stopTime`; a completed transmission positioned behind a
still-active earlier transmission may however still be returned. -/
theorem activeTransmissions_front_cleanup (now : ℚ) (ts : List Transmission)
    (h : ∀ t ∈ ts, t.startTime ≤ now) :
    (∀ t ∈ getActiveTransmissions now ts, t.startTime ≤ now) ∧
    (∀ t : Transmission,
      (getActiveTransmissions now ts).head? = some t → now < t.stopTime) ∧
    List.IsSuffix (getActiveTransmissions now ts) ts := by
  induction ts with
  | nil =>
    refine ⟨by simp [getActiveTransmissions, removePastTransmissions], ?_, ?_⟩
    · intro t ht
      simp [getActiveTransmissions, removePastTransmissions] at ht
    · simp [getActiveTransmissions, removePastTransmissions]
  | cons t rest ih =>
    have hrest : ∀ u ∈ rest, u.startTime ≤ now := fun u hu => h u (List.mem_cons_of_mem t hu)
    by_cases hc : t.completed now
    · have hdrop : getActiveTransmissions now (t :: rest) =
          getActiveTransmissions now rest := by
        simp [getActiveTransmissions, removePastTransmissions, List.dropWhile_cons, hc]
      obtain ⟨ih1, ih2, ih3⟩ := ih hrest
      rw [hdrop]
      exact ⟨ih1, ih2, ih3.trans (List.suffix_cons t rest)⟩
    · have hkeep : getActiveTransmissions now (t :: rest) = t :: rest := by
        simp [getActiveTransmissions, removePastTransmissions, List.dropWhile_cons, hc]
      rw [hkeep]
      refine ⟨h, ?_, List.suffix_refl _⟩
      intro u hu
      simp only [List.head?_cons, Option.some_inj] at hu
      subst hu
      exact lt_of_not_le (fun hle => hc hle)

/-- Witness for C8 (amended) at the counterexample registry state. -/
theorem activeTransmissions_front_cleanup_witness :
    (∀ t ∈ getActiveTransmissions 6 [Transmission.mk 0 10, Transmission.mk 1 5],
      t.startTime ≤ 6) ∧
    (∀ t : Transmission,
      (getActiveTransmissions 6 [Transmission.mk 0 10, Transmission.mk 1 5]).head? =
        some t → (6 : ℚ) < t.stopTime) ∧
    List.IsSuffix (getActiveTransmissions 6 [Transmission.mk 0 10, Transmission.mk 1 5])
      [Transmission.mk 0 10, Transmission.mk 1 5] :=
  activeTransmissions_front_cleanup 6 [Transmission.mk 0 10, Transmission.mk 1 5]
    (by
      intro t ht
      rcases List.mem_cons.mp ht with rfl | ht2
      · norm_num
      · rcases List.mem_cons.mp ht2 with rfl | ht3
        · norm_num
        · exact absurd ht3 (List.not_mem_nil t))

end Gymwipe
